import Mathlib

/-!
Verification of the CompanyFinder pipeline (src/main.py).

Strings are modelled as lists of characters (`Str`).  The concrete regular
expressions of the source are embedded as executable matchers with Python
`re` semantics specialised to each pattern (leftmost search, greedy
repetition with the backtracking behaviour these particular patterns admit).
Network calls (GitHub REST endpoints, website fetch, profile-page scrape)
are modelled as oracle functions supplied through explicit parameters or an
environment record: a `none`/non-200 answer models a failed call.  Character
classes such as whitespace are modelled over ASCII, which is the fragment
the program's data exercises.
-/

/-- Strings of the model: lists of characters. -/
abbrev Str := List Char

/-- Coerce a Lean string literal into the model's string type. -/
def str (s : String) : Str := s.data

/-- ASCII whitespace, the model of Python's `\s` class and `str.strip`. -/
def isSpaceChar (c : Char) : Bool :=
  c == ' ' || c == '\t' || c == '\n' || c == '\r' || c == '\x0b' || c == '\x0c'

/-- ASCII letter. -/
def isAlphaChar (c : Char) : Bool :=
  ('A' ≤ c && c ≤ 'Z') || ('a' ≤ c && c ≤ 'z')

/-- ASCII digit. -/
def isDigitChar (c : Char) : Bool :=
  '0' ≤ c && c ≤ '9'

/-- ASCII alphanumeric. -/
def isAlnumChar (c : Char) : Bool :=
  isAlphaChar c || isDigitChar c

/-- ASCII lowercasing of one character, the model of Python's `str.lower`. -/
def lowChar (c : Char) : Char :=
  if 'A' ≤ c && c ≤ 'Z' then Char.ofNat (c.toNat + 32) else c

/-- Lowercase a string (model of Python's `str.lower`). -/
def lowerStr (s : Str) : Str := s.map lowChar

/-- Does `needle` occur at the start of `hay`?  (Exact characters.) -/
def startsStr : Str → Str → Bool
  | [], _ => true
  | _ :: _, [] => false
  | a :: as, b :: bs => a == b && startsStr as bs

/-- Python's substring test `needle in hay` (exact characters). -/
def inStr (needle : Str) : Str → Bool
  | [] => startsStr needle []
  | c :: t => startsStr needle (c :: t) || inStr needle t

/-- Case-insensitive version of `startsStr` (model of a `re.I` literal). -/
def ciStarts : Str → Str → Bool
  | [], _ => true
  | _ :: _, [] => false
  | a :: as, b :: bs => lowChar a == lowChar b && ciStarts as bs

/-- Case-insensitive occurrence of `needle` anywhere in `hay`. -/
def ciAnywhere (needle : Str) : Str → Bool
  | [] => ciStarts needle []
  | c :: t => ciStarts needle (c :: t) || ciAnywhere needle t

/-- Split a string into its maximal leading run of characters satisfying `p`
and the remainder — the step a greedy character class performs. -/
def takeClass (p : Char → Bool) : Str → Str × Str
  | [] => ([], [])
  | c :: t =>
    if p c then
      let r := takeClass p t
      (c :: r.1, r.2)
    else ([], c :: t)

/-! ## Link extraction (`extract_links`, src/main.py:38-56) -/

/-- The literal `https?://` of both URL patterns (case-sensitive, greedy
`s?`): returns the consumed scheme and the remainder. -/
def matchScheme : Str → Option (Str × Str)
  | 'h' :: 't' :: 't' :: 'p' :: 's' :: ':' :: '/' :: '/' :: r =>
    some (str r"https://", r)
  | 'h' :: 't' :: 't' :: 'p' :: ':' :: '/' :: '/' :: r =>
    some (str r"http://", r)
  | _ => none

/-- Characters admitted by `[^\s)]` in the markdown-link pattern. -/
def mdUrlChar (c : Char) : Bool :=
  !(isSpaceChar c) && !(c == ')')

/-- Match of `\[([^\]]*?)\]\((https?://[^\s)]+)\)` anchored at the start of
the input; on success returns the URL group and the remainder after the
whole match.  The lazy label class excludes `]`, so the label ends at the
first `]`; the greedy URL class excludes `)`, so the URL run is maximal and
must be terminated by `)`. -/
def matchMarkdownAt (s : Str) : Option (Str × Str) :=
  match s with
  | '[' :: t =>
    let lab := takeClass (fun c => !(c == ']')) t
    match lab.2 with
    | ']' :: '(' :: r2 =>
      match matchScheme r2 with
      | some sc =>
        let run := takeClass mdUrlChar sc.2
        match run.1, run.2 with
        | [], _ => none
        | _ :: _, ')' :: r4 => some (sc.1 ++ run.1, r4)
        | _ :: _, _ => none
      | none => none
    | _ => none
  | _ => none

/-- `re.finditer` driver for the markdown-link pattern: try each start
position left to right, emitting non-overlapping matches.  The fuel is the
input length; every step consumes at least one character. -/
def scanMarkdownAux : Nat → Str → List Str
  | 0, _ => []
  | _ + 1, [] => []
  | f + 1, c :: t =>
    match matchMarkdownAt (c :: t) with
    | some r => r.1 :: scanMarkdownAux f r.2
    | none => scanMarkdownAux f t

/-- Characters admitted by `[^\s\)\]\}\,\'"]` in the bare-URL pattern. -/
def bareUrlChar (c : Char) : Bool :=
  !(isSpaceChar c) && !(c == ')') && !(c == ']') && !(c == '}') &&
    !(c == ',') && !(c == '\'') && !(c == '"')

/-- Match of `https?://[^\s\)\]\}\,\'"]+` anchored at the start of the
input; returns the match and the remainder. -/
def matchBareAt (s : Str) : Option (Str × Str) :=
  match matchScheme s with
  | some sc =>
    let run := takeClass bareUrlChar sc.2
    match run.1 with
    | [] => none
    | _ :: _ => some (sc.1 ++ run.1, run.2)
  | none => none

/-- `re.finditer` driver for the bare-URL pattern. -/
def scanBareAux : Nat → Str → List Str
  | 0, _ => []
  | _ + 1, [] => []
  | f + 1, c :: t =>
    match matchBareAt (c :: t) with
    | some r => r.1 :: scanBareAux f r.2
    | none => scanBareAux f t

/-- The trailing punctuation stripped by `rstrip(").,]>'\"")`. -/
def isTrailPunct (c : Char) : Bool :=
  c == ')' || c == '.' || c == ',' || c == ']' || c == '>' ||
    c == '\'' || c == '"'

/-- Python `strip()` over ASCII whitespace. -/
def stripWs (s : Str) : Str :=
  ((s.dropWhile isSpaceChar).reverse.dropWhile isSpaceChar).reverse

/-- The `add` helper's trimming: `url.strip().rstrip(").,]>'\"")`. -/
def trimUrl (u : Str) : Str :=
  ((stripWs u).reverse.dropWhile isTrailPunct).reverse

/-- The scan order of `extract_links`: all markdown-pass matches followed by
all bare-pass matches, each trimmed.  (Empty results of trimming are dropped
by the dedup step, as in the source's `if u and u not in seen`.) -/
def foundUrls (text : Str) : List Str :=
  ((scanMarkdownAux text.length text) ++ (scanBareAux text.length text)).map trimUrl

/-- The `seen`/`ordered` loop of `extract_links`: keep the first occurrence
of each nonempty URL, in order. -/
def dedupFirstAux (seen : List Str) : List Str → List Str
  | [] => []
  | u :: t =>
    if u = [] then dedupFirstAux seen t
    else if u ∈ seen then dedupFirstAux seen t
    else u :: dedupFirstAux (u :: seen) t

/-- `extract_links(text, domains)` (src/main.py:38-56).  `domains = none`
models the default `None`; a supplied empty list is falsy in Python
(`if domains:`), so no filtering happens for it either. -/
def extract_links (text : Str) (domains : Option (List Str)) : List Str :=
  let ordered := dedupFirstAux [] (foundUrls text)
  match domains with
  | none => ordered
  | some [] => ordered
  | some (d :: ds) =>
    let dl := (d :: ds).map lowerStr
    ordered.filter (fun u => dl.any (fun e => inStr e (lowerStr u)))

/-- Position of the first occurrence of `u` in `l` (length of `l` if
absent); the measuring rod for "first-seen order". -/
def firstPos : List Str → Str → Nat
  | [], _ => 0
  | v :: t, u => if v = u then 0 else firstPos t u + 1

/-! ### Properties of the dedup loop -/

theorem mem_dedupFirstAux (l : List Str) : ∀ (seen : List Str) (u : Str),
    u ∈ dedupFirstAux seen l ↔ u ∈ l ∧ u ∉ seen ∧ u ≠ [] := by
  induction l with
  | nil => intro seen u; simp [dedupFirstAux]
  | cons w t ih =>
    intro seen u
    by_cases hw : w = []
    · simp only [dedupFirstAux, if_pos hw]
      rw [ih]
      constructor
      · rintro ⟨h1, h2, h3⟩; exact ⟨List.mem_cons_of_mem _ h1, h2, h3⟩
      · rintro ⟨h1, h2, h3⟩
        rcases List.mem_cons.mp h1 with rfl | h1
        · exact absurd hw h3
        · exact ⟨h1, h2, h3⟩
    · by_cases hs : w ∈ seen
      · simp only [dedupFirstAux, if_neg hw, if_pos hs]
        rw [ih]
        constructor
        · rintro ⟨h1, h2, h3⟩; exact ⟨List.mem_cons_of_mem _ h1, h2, h3⟩
        · rintro ⟨h1, h2, h3⟩
          rcases List.mem_cons.mp h1 with rfl | h1
          · exact absurd hs h2
          · exact ⟨h1, h2, h3⟩
      · simp only [dedupFirstAux, if_neg hw, if_neg hs, List.mem_cons]
        rw [ih]
        constructor
        · rintro (rfl | ⟨h1, h2, h3⟩)
          · exact ⟨Or.inl rfl, hs, hw⟩
          · refine ⟨Or.inr h1, ?_, h3⟩
            intro hc; exact h2 (List.mem_cons_of_mem _ hc)
        · rintro ⟨h1, h2, h3⟩
          rcases h1 with rfl | h1
          · exact Or.inl rfl
          · by_cases hu : u = w
            · exact Or.inl hu
            · refine Or.inr ⟨h1, ?_, h3⟩
              intro hc
              rcases List.mem_cons.mp hc with h | h
              · exact hu h
              · exact h2 h

theorem nodup_dedupFirstAux (l : List Str) : ∀ seen, (dedupFirstAux seen l).Nodup := by
  induction l with
  | nil => intro seen; simp [dedupFirstAux]
  | cons w t ih =>
    intro seen
    by_cases hw : w = []
    · simp only [dedupFirstAux, if_pos hw]; exact ih seen
    · by_cases hs : w ∈ seen
      · simp only [dedupFirstAux, if_neg hw, if_pos hs]; exact ih seen
      · simp only [dedupFirstAux, if_neg hw, if_neg hs]
        refine List.nodup_cons.mpr ⟨?_, ih _⟩
        intro hmem
        rcases (mem_dedupFirstAux t (w :: seen) w).mp hmem with ⟨_, h2, _⟩
        exact h2 (List.mem_cons_self _ _)

theorem pairwise_dedupFirstAux (l : List Str) : ∀ seen,
    (dedupFirstAux seen l).Pairwise (fun u v => firstPos l u < firstPos l v) := by
  induction l with
  | nil => intro seen; simp [dedupFirstAux]
  | cons w t ih =>
    intro seen
    have shift : ∀ u, u ≠ w → firstPos (w :: t) u = firstPos t u + 1 := by
      intro u hu
      simp only [firstPos]
      rw [if_neg (fun h => hu h.symm)]
    have self0 : firstPos (w :: t) w = 0 := by
      simp [firstPos]
    by_cases hw : w = []
    · simp only [dedupFirstAux, if_pos hw]
      refine List.Pairwise.imp_of_mem ?_ (ih seen)
      intro a b ha hb hR
      have ha' := (mem_dedupFirstAux t seen a).mp ha
      have hb' := (mem_dedupFirstAux t seen b).mp hb
      have haw : a ≠ w := by rw [hw]; exact ha'.2.2
      have hbw : b ≠ w := by rw [hw]; exact hb'.2.2
      rw [shift a haw, shift b hbw]
      omega
    · by_cases hs : w ∈ seen
      · simp only [dedupFirstAux, if_neg hw, if_pos hs]
        refine List.Pairwise.imp_of_mem ?_ (ih seen)
        intro a b ha hb hR
        have ha' := (mem_dedupFirstAux t seen a).mp ha
        have hb' := (mem_dedupFirstAux t seen b).mp hb
        have haw : a ≠ w := fun h => ha'.2.1 (h ▸ hs)
        have hbw : b ≠ w := fun h => hb'.2.1 (h ▸ hs)
        rw [shift a haw, shift b hbw]
        omega
      · simp only [dedupFirstAux, if_neg hw, if_neg hs]
        refine List.pairwise_cons.mpr ⟨?_, ?_⟩
        · intro b hb
          have hb' := (mem_dedupFirstAux t (w :: seen) b).mp hb
          have hbw : b ≠ w := fun h => hb'.2.1 (h ▸ List.mem_cons_self _ _)
          rw [shift b hbw, self0]
          omega
        · refine List.Pairwise.imp_of_mem ?_ (ih (w :: seen))
          intro a b ha hb hR
          have ha' := (mem_dedupFirstAux t (w :: seen) a).mp ha
          have hb' := (mem_dedupFirstAux t (w :: seen) b).mp hb
          have haw : a ≠ w := fun h => ha'.2.1 (h ▸ List.mem_cons_self _ _)
          have hbw : b ≠ w := fun h => hb'.2.1 (h ▸ List.mem_cons_self _ _)
          rw [shift a haw, shift b hbw]
          omega

/-- C5: for every input text, with or without a domains filter,
`extract_links` returns a duplicate-free sequence (exact string equality
after trimming) ordered by first occurrence in the scan order, and — being a
total function — it always returns a (possibly empty) sequence, never
raising.  The unfiltered output contains exactly the nonempty trimmed URLs
of the scan order. -/
theorem extract_links_firstseen_nodup (text : Str) (domains : Option (List Str)) :
    (extract_links text domains).Nodup ∧
    (extract_links text domains).Pairwise
      (fun u v => firstPos (foundUrls text) u < firstPos (foundUrls text) v) ∧
    (∀ u, u ∈ extract_links text none ↔ u ∈ foundUrls text ∧ u ≠ []) := by
  have base_nodup : (dedupFirstAux [] (foundUrls text)).Nodup :=
    nodup_dedupFirstAux (foundUrls text) []
  have base_pw := pairwise_dedupFirstAux (foundUrls text) []
  have hmem : ∀ u, u ∈ extract_links text none ↔ u ∈ foundUrls text ∧ u ≠ [] := by
    intro u
    show u ∈ dedupFirstAux [] (foundUrls text) ↔ _
    rw [mem_dedupFirstAux]
    simp
  refine ⟨?_, ?_, hmem⟩
  · match domains with
    | none => exact base_nodup
    | some [] => exact base_nodup
    | some (d :: ds) =>
      exact List.Nodup.sublist (List.filter_sublist _) base_nodup
  · match domains with
    | none => exact base_pw
    | some [] => exact base_pw
    | some (d :: ds) =>
      exact List.Pairwise.sublist (List.filter_sublist _) base_pw

theorem extract_links_firstseen_nodup_witness :
    (extract_links (str r"a [x](http://a.b) see http://c.d and http://a.b") none).Nodup ∧
    (extract_links (str r"a [x](http://a.b) see http://c.d and http://a.b") none).Pairwise
      (fun u v => firstPos (foundUrls (str r"a [x](http://a.b) see http://c.d and http://a.b")) u <
        firstPos (foundUrls (str r"a [x](http://a.b) see http://c.d and http://a.b")) v) ∧
    (∀ u, u ∈ extract_links (str r"a [x](http://a.b) see http://c.d and http://a.b") none ↔
      u ∈ foundUrls (str r"a [x](http://a.b) see http://c.d and http://a.b") ∧ u ≠ []) :=
  extract_links_firstseen_nodup (str r"a [x](http://a.b) see http://c.d and http://a.b") none

/-- C6 (amended): for a non-empty domains list, the filtered result is a
subsequence of the unfiltered result and every returned URL contains at
least one of the domains as a case-insensitive substring.  (The claim as
stated fails for the empty domains list, which Python's `if domains:`
treats as no filter at all.) -/
theorem extract_links_domains_subseq (text : Str) (d : Str) (ds : List Str) :
    (extract_links text (some (d :: ds))).Sublist (extract_links text none) ∧
    ∀ u ∈ extract_links text (some (d :: ds)),
      ∃ e ∈ d :: ds, inStr (lowerStr e) (lowerStr u) = true := by
  constructor
  · exact List.filter_sublist _
  · intro u hu
    have hp := (List.mem_filter.mp hu).2
    rcases List.any_eq_true.mp hp with ⟨e', he', hin⟩
    rcases List.mem_map.mp he' with ⟨e, he, rfl⟩
    exact ⟨e, he, hin⟩

theorem extract_links_domains_subseq_witness :
    (extract_links (str r"see http://a.bc") (some [str r"A.bc"])).Sublist
      (extract_links (str r"see http://a.bc") none) ∧
    ∃ e ∈ [str r"A.bc"], inStr (lowerStr e) (lowerStr (str r"http://a.bc")) = true :=
  ⟨(extract_links_domains_subseq (str r"see http://a.bc") (str r"A.bc") []).1,
   (extract_links_domains_subseq (str r"see http://a.bc") (str r"A.bc") []).2
     (str r"http://a.bc") (by decide)⟩

/-- C6 counterexample: with the empty domains list supplied as filter, the
result still contains a URL (the filter is skipped, `if domains:` being
false), yet that URL contains none of the zero domain strings — refuting
the claim as stated for that input. -/
theorem extract_links_empty_domains_counterexample :
    (str r"http://a.bc") ∈ extract_links (str r"see http://a.bc") (some []) ∧
    ¬ ∃ e ∈ ([] : List Str), inStr (lowerStr e) (lowerStr (str r"http://a.bc")) = true := by
  constructor
  · decide
  · rintro ⟨e, he, -⟩
    exact absurd he (List.not_mem_nil e)

/-! ## Organization resolution (src/main.py:67-69, 219-251, 285-299) -/

/-- The character class `[A-Za-z0-9_.-]` of the org-slug pattern. -/
def orgChar (c : Char) : Bool :=
  isAlnumChar c || c == '_' || c == '.' || c == '-'

/-- Match of `github\.com/([A-Za-z0-9_.-]+)` (with `re.I`) anchored at the
start of the input: the literal case-insensitively, then a maximal nonempty
run of slug characters. -/
def matchGithubAt (s : Str) : Option Str :=
  if ciStarts (str r"github.com/") s then
    let run := takeClass orgChar (s.drop 11)
    match run.1 with
    | [] => none
    | _ :: _ => some run.1
  else none

/-- `get_org_from_github_url` (src/main.py:67-69): leftmost match of the
org-slug pattern, or `none`. -/
def get_org_from_github_url : Str → Option Str
  | [] => none
  | c :: t =>
    match matchGithubAt (c :: t) with
    | some org => some org
    | none => get_org_from_github_url t

/-- `filter_github_orgs` (src/main.py:240-251).  The GitHub org-lookup
endpoint is modelled by the oracle `status`, giving the HTTP status code of
`GET /orgs/<org>`; only orgs answering 200 are kept, re-serialised as
organization-root URLs. -/
def filter_github_orgs (status : Str → Nat) (urls : List Str) : List Str :=
  match urls with
  | [] => []
  | url :: t =>
    match get_org_from_github_url url with
    | none => filter_github_orgs status t
    | some org =>
      if status org = 200 then
        (str r"https://github.com/" ++ org) :: filter_github_orgs status t
      else filter_github_orgs status t

/-- Lowercase alphanumeric, the token class `[a-z0-9]+` of
`choose_best_org_from_site` (applied to the lowercased company name). -/
def lowAlnumChar (c : Char) : Bool :=
  ('a' ≤ c && c ≤ 'z') || ('0' ≤ c && c ≤ '9')

/-- `re.findall(r'[a-z0-9]+', company)`: maximal runs of the class, in
order.  The first argument accumulates the current run reversed. -/
def runsOfAux (p : Char → Bool) : Str → Str → List Str
  | cur, [] => if cur = [] then [] else [cur.reverse]
  | cur, c :: t =>
    if p c then runsOfAux p (c :: cur) t
    else if cur = [] then runsOfAux p [] t
    else cur.reverse :: runsOfAux p [] t

/-- All maximal runs of characters satisfying `p`. -/
def runsOf (p : Char → Bool) (s : Str) : List Str := runsOfAux p [] s

/-- The score computed per organization inside `choose_best_org_from_site`
(src/main.py:226-231): the occurrence count, plus 5 if the org is a
substring of the lowercased company name or some company token is a
substring of the org, plus 2 per company token that is a substring of the
org. -/
def orgScore (company : Str) (tokens : List Str) (org : Str) (count : Nat) : Nat :=
  let s1 := count
  let s2 := if inStr org company || tokens.any (fun tok => !tok.isEmpty && inStr tok org)
    then s1 + 5 else s1
  s2 + (tokens.filter (fun tok => !tok.isEmpty && inStr tok org)).length * 2

/-- One iteration of the best-score loop: replace the best candidate when
the new score strictly exceeds the best score so far (`score > best_score`),
so ties keep the earlier entry. -/
def chooseStep (company : Str) (tokens : List Str) (acc : Option Str × Int)
    (p : Str × Nat) : Option Str × Int :=
  let score : Int := (orgScore company tokens p.1 p.2 : Nat)
  if acc.2 < score then (some p.1, score) else acc

/-- `choose_best_org_from_site` (src/main.py:219-237).  The counts dict is
an association list in iteration order; the best score starts at -1, and the
final `if best:` keeps Python's truthiness: an empty winning key yields
`None`. -/
def choose_best_org_from_site (counts : List (Str × Nat)) (company_name : Str) :
    Option Str :=
  match counts with
  | [] => none
  | _ :: _ =>
    let company := lowerStr company_name
    let tokens := runsOf lowAlnumChar company
    let best := counts.foldl (chooseStep company tokens) (none, -1)
    match best.1 with
    | some b => if b = [] then none else some (str r"https://github.com/" ++ b)
    | none => none

/-- Insert into the `chosen_githubs` set: a member already present is not
added again. -/
def addUnique (l : List Str) (u : Str) : List Str :=
  if u ∈ l then l else l ++ [u]

/-- The `chosen_githubs` assembly (src/main.py:285-296) before validation:
when a website URL is known, the site-scan counts (an oracle for
`extract_githubs_from_site`, `website = some counts`) contribute the
best-scoring org URL and every counted org URL; the LLM-suggested GitHub
links are then always added.  Membership models the Python set. -/
def github_candidates (company_name : Str) (website : Option (List (Str × Nat)))
    (llm_githubs : List Str) : List Str :=
  let s1 := match website with
    | none => []
    | some siteCounts =>
      let s0 := match choose_best_org_from_site siteCounts company_name with
        | some b => [b]
        | none => []
      siteCounts.foldl (fun acc p => addUnique acc (str r"https://github.com/" ++ p.1)) s0
  llm_githubs.foldl addUnique s1

/-! ### Membership facts about validation and candidate assembly -/

theorem not_mem_filter_github_orgs (status : Str → Nat) (org : Str)
    (h : status org ≠ 200) : ∀ urls : List Str,
    str r"https://github.com/" ++ org ∉ filter_github_orgs status urls := by
  intro urls
  induction urls with
  | nil => simp [filter_github_orgs]
  | cons url t ih =>
    cases hg : get_org_from_github_url url with
    | none => simpa [filter_github_orgs, hg] using ih
    | some o =>
      by_cases hs : status o = 200
      · simp only [filter_github_orgs, hg, if_pos hs]
        intro hmem
        rcases List.mem_cons.mp hmem with heq | hmem'
        · have : org = o := List.append_cancel_left heq
          exact h (this ▸ hs)
        · exact ih hmem'
      · simpa [filter_github_orgs, hg, hs] using ih

theorem mem_filter_github_orgs_of (status : Str → Nat) (g org : Str)
    (hg : get_org_from_github_url g = some org) (hs : status org = 200) :
    ∀ urls : List Str, g ∈ urls →
    str r"https://github.com/" ++ org ∈ filter_github_orgs status urls := by
  intro urls
  induction urls with
  | nil => intro h; exact absurd h (List.not_mem_nil g)
  | cons url t ih =>
    intro hmem
    rcases List.mem_cons.mp hmem with rfl | hmem'
    · simp [filter_github_orgs, hg, hs]
    · cases hgu : get_org_from_github_url url with
      | none => simpa [filter_github_orgs, hgu] using ih hmem'
      | some o =>
        by_cases hso : status o = 200
        · simp only [filter_github_orgs, hgu, if_pos hso]
          exact List.mem_cons_of_mem _ (ih hmem')
        · simpa [filter_github_orgs, hgu, hso] using ih hmem'

theorem mem_addUnique (l : List Str) (w u : Str) :
    u ∈ addUnique l w ↔ u ∈ l ∨ u = w := by
  unfold addUnique
  by_cases h : w ∈ l
  · simp only [if_pos h]
    constructor
    · exact Or.inl
    · rintro (h1 | rfl); exacts [h1, h]
  · simp [if_neg h]

theorem mem_foldl_addUnique : ∀ (l acc : List Str) (u : Str),
    u ∈ l.foldl addUnique acc ↔ u ∈ acc ∨ u ∈ l := by
  intro l
  induction l with
  | nil => intro acc u; simp
  | cons w t ih =>
    intro acc u
    simp only [List.foldl_cons]
    rw [ih, mem_addUnique]
    constructor
    · rintro ((h | rfl) | h)
      · exact Or.inl h
      · exact Or.inr (List.mem_cons_self _ _)
      · exact Or.inr (List.mem_cons_of_mem _ h)
    · rintro (h | h)
      · exact Or.inl (Or.inl h)
      · rcases List.mem_cons.mp h with rfl | h
        · exact Or.inl (Or.inr rfl)
        · exact Or.inr h

/-- C1 (amended): the LLM-suggestion URLs are not a fallback stage — they
are always added to the candidate set, so any LLM-suggested URL whose
organization passes the existence check appears in the resolved set, even
when the site-scan stage already produced validated organizations. -/
theorem llm_suggestion_always_contributes (company : Str)
    (website : Option (List (Str × Nat))) (llm : List Str) (status : Str → Nat)
    (g org : Str) (hmem : g ∈ llm) (hg : get_org_from_github_url g = some org)
    (hs : status org = 200) :
    str r"https://github.com/" ++ org ∈
      filter_github_orgs status (github_candidates company website llm) := by
  apply mem_filter_github_orgs_of status g org hg hs
  simp only [github_candidates]
  rw [mem_foldl_addUnique]
  exact Or.inr hmem

theorem llm_suggestion_always_contributes_witness :
    str r"https://github.com/" ++ str r"other" ∈
      filter_github_orgs (fun _ => 200)
        (github_candidates (str r"acme") (some [(str r"acme", 3)])
          [str r"https://github.com/other"]) :=
  llm_suggestion_always_contributes (str r"acme") (some [(str r"acme", 3)])
    [str r"https://github.com/other"] (fun _ => 200)
    (str r"https://github.com/other") (str r"other")
    (by decide) (by decide) rfl

/-- C1 counterexample: with the website's site-scan yielding the validated
organization `acme` (and `acme` scoring best for the company name), the
LLM-suggested URL `https://github.com/other` still contributes an
additional resolved organization — it is absent when the LLM list is empty
and present otherwise, refuting the claimed fallback behaviour. -/
theorem llm_stage_not_a_fallback_counterexample :
    (str r"https://github.com/acme") ∈
      filter_github_orgs (fun _ => 200)
        (github_candidates (str r"acme") (some [(str r"acme", 3)])
          [str r"https://github.com/other"]) ∧
    (str r"https://github.com/other") ∈
      filter_github_orgs (fun _ => 200)
        (github_candidates (str r"acme") (some [(str r"acme", 3)])
          [str r"https://github.com/other"]) ∧
    (str r"https://github.com/other") ∉
      filter_github_orgs (fun _ => 200)
        (github_candidates (str r"acme") (some [(str r"acme", 3)]) []) := by
  refine ⟨by decide, by decide, by decide⟩

/-- C2: an organization whose existence check (`GET /orgs/<org>`) answers
anything but 200 is never an element of the resolved URL list handed to
rendering and member enrichment, whatever its score or provenance. -/
theorem failed_existence_check_never_resolved (status : Str → Nat)
    (company : Str) (website : Option (List (Str × Nat))) (llm : List Str)
    (org : Str) (h : status org ≠ 200) :
    str r"https://github.com/" ++ org ∉
      filter_github_orgs status (github_candidates company website llm) :=
  not_mem_filter_github_orgs status org h _

theorem failed_existence_check_never_resolved_witness :
    str r"https://github.com/" ++ str r"acme" ∉
      filter_github_orgs (fun o => if o = str r"acme" then 404 else 200)
        (github_candidates (str r"x") (some [(str r"acme", 9)])
          [str r"https://github.com/acme"]) :=
  failed_existence_check_never_resolved
    (fun o => if o = str r"acme" then 404 else 200) (str r"x")
    (some [(str r"acme", 9)]) [str r"https://github.com/acme"]
    (str r"acme") (by decide)

theorem filter_github_orgs_all_fail (status : Str → Nat)
    (h : ∀ org, status org ≠ 200) :
    ∀ urls, filter_github_orgs status urls = [] := by
  intro urls
  induction urls with
  | nil => rfl
  | cons url t ih =>
    cases hg : get_org_from_github_url url with
    | none => simpa [filter_github_orgs, hg] using ih
    | some o => simp [filter_github_orgs, hg, h o, ih]

/-- C4 (amended): when every existence check fails, resolution returns the
empty list — there is no unverified-fallback stage in this code; the LLM
suggestions are only ever returned after validating. -/
theorem all_validation_failing_yields_empty (status : Str → Nat)
    (company : Str) (website : Option (List (Str × Nat))) (llm : List Str)
    (h : ∀ org, status org ≠ 200) :
    filter_github_orgs status (github_candidates company website llm) = [] :=
  filter_github_orgs_all_fail status h _

theorem all_validation_failing_yields_empty_witness :
    filter_github_orgs (fun _ => 404)
      (github_candidates (str r"acme") none [str r"https://github.com/ghost"]) = [] :=
  all_validation_failing_yields_empty (fun _ => 404) (str r"acme") none
    [str r"https://github.com/ghost"] (by intro org; show (404 : Nat) ≠ 200; decide)

/-- C4 counterexample: the LLM suggestion `https://github.com/ghost`
normalizes to the organization `ghost`, yet when its existence check fails
the resolved output is empty rather than the claimed unverified fallback
list containing the normalized URL. -/
theorem no_unverified_fallback_counterexample :
    github_candidates (str r"acme") none [str r"https://github.com/ghost"] =
      [str r"https://github.com/ghost"] ∧
    get_org_from_github_url (str r"https://github.com/ghost") = some (str r"ghost") ∧
    filter_github_orgs (fun _ => 404)
      (github_candidates (str r"acme") none [str r"https://github.com/ghost"]) = [] := by
  refine ⟨by decide, by decide, by decide⟩

/-! ### Scoring -/

/-- The scoring formula as the spec words it: occurrence count, plus 5 on
substring overlap between org and company name or tokens, plus twice the
number of company tokens that are substrings of the org. -/
def specOrgScore (company : Str) (tokens : List Str) (org : Str) (count : Nat) : Nat :=
  count +
    (if inStr org company || tokens.any (fun tok => !tok.isEmpty && inStr tok org)
      then 5 else 0) +
    2 * (tokens.filter (fun tok => !tok.isEmpty && inStr tok org)).length

/-- C7: the score computed by `choose_best_org_from_site` equals the spec's
formula `count + 5*[substring overlap] + 2*[token-overlap count]`, and it is
monotone in the occurrence count: raising the count (all else fixed) never
decreases the score. -/
theorem org_score_formula_and_monotone (company : Str) (tokens : List Str)
    (org : Str) (c c' : Nat) :
    orgScore company tokens org c = specOrgScore company tokens org c ∧
    (c ≤ c' → orgScore company tokens org c ≤ orgScore company tokens org c') := by
  constructor
  · cases hb : (inStr org company ||
      tokens.any fun tok => !tok.isEmpty && inStr tok org) <;>
        simp [orgScore, specOrgScore, hb] <;> omega
  · intro hcc
    cases hb : (inStr org company ||
      tokens.any fun tok => !tok.isEmpty && inStr tok org) <;>
        simp [orgScore, hb] <;> omega

theorem org_score_formula_and_monotone_witness :
    orgScore (str r"acme labs") (runsOf lowAlnumChar (str r"acme labs"))
        (str r"acmelabs") 3 =
      specOrgScore (str r"acme labs") (runsOf lowAlnumChar (str r"acme labs"))
        (str r"acmelabs") 3 ∧
    orgScore (str r"acme labs") (runsOf lowAlnumChar (str r"acme labs"))
        (str r"acmelabs") 3 ≤
      orgScore (str r"acme labs") (runsOf lowAlnumChar (str r"acme labs"))
        (str r"acmelabs") 7 :=
  ⟨(org_score_formula_and_monotone (str r"acme labs")
      (runsOf lowAlnumChar (str r"acme labs")) (str r"acmelabs") 3 7).1,
   (org_score_formula_and_monotone (str r"acme labs")
      (runsOf lowAlnumChar (str r"acme labs")) (str r"acmelabs") 3 7).2
     (by decide)⟩

/-! ### Shape of `choose_best_org_from_site` -/

theorem foldl_chooseStep_shape (company : Str) (tokens : List Str) :
    ∀ (l : List (Str × Nat)) (acc : Option Str × Int),
    (∃ p ∈ l, (l.foldl (chooseStep company tokens) acc).1 = some p.1) ∨
    l.foldl (chooseStep company tokens) acc = acc := by
  intro l
  induction l with
  | nil => intro acc; exact Or.inr rfl
  | cons q t ih =>
    intro acc
    simp only [List.foldl_cons]
    rcases ih (chooseStep company tokens acc q) with ⟨p, hp, heq⟩ | heq
    · exact Or.inl ⟨p, List.mem_cons_of_mem _ hp, heq⟩
    · rw [heq]
      by_cases hlt : acc.2 < ((orgScore company tokens q.1 q.2 : Nat) : Int)
      · exact Or.inl ⟨q, List.mem_cons_self _ _, by simp [chooseStep, hlt]⟩
      · exact Or.inr (by simp [chooseStep, hlt])

/-- C10 (amended): for every non-empty counts dict all of whose keys are
non-empty strings, `choose_best_org_from_site` returns
`https://github.com/<org>` for one of the dict's keys, and it returns
`none` exactly on the empty dict.  (The claim as stated fails when the
winning key is the empty string: Python's final `if best:` is then falsy
and `None` is returned despite the non-empty input.) -/
theorem choose_best_returns_a_key (counts : List (Str × Nat)) (company : Str)
    (hkeys : ∀ p ∈ counts, p.1 ≠ []) :
    (counts ≠ [] → ∃ p ∈ counts,
      choose_best_org_from_site counts company =
        some (str r"https://github.com/" ++ p.1)) ∧
    (choose_best_org_from_site counts company = none ↔ counts = []) := by
  rcases counts with - | ⟨q, t⟩
  · exact ⟨fun h => absurd rfl h, by simp [choose_best_org_from_site]⟩
  · have key : ∃ p ∈ q :: t,
        ((q :: t).foldl
          (chooseStep (lowerStr company) (runsOf lowAlnumChar (lowerStr company)))
          (none, -1)).1 = some p.1 := by
      set ck := lowerStr company with hck
      set tk := runsOf lowAlnumChar ck with htk
      have step1 : chooseStep ck tk (none, -1) q =
          (some q.1, ((orgScore ck tk q.1 q.2 : Nat) : Int)) := by
        have : ((-1 : Int)) < ((orgScore ck tk q.1 q.2 : Nat) : Int) := by
          have := Int.natCast_nonneg (orgScore ck tk q.1 q.2)
          omega
        simp [chooseStep, this]
      rw [List.foldl_cons, step1]
      rcases foldl_chooseStep_shape ck tk t
          (some q.1, ((orgScore ck tk q.1 q.2 : Nat) : Int)) with ⟨p, hp, heq⟩ | heq
      · exact ⟨p, List.mem_cons_of_mem _ hp, heq⟩
      · exact ⟨q, List.mem_cons_self _ _, by rw [heq]⟩
    rcases key with ⟨p, hp, hfold⟩
    have hkey : p.1 ≠ [] := hkeys p hp
    have hres : choose_best_org_from_site (q :: t) company =
        some (str r"https://github.com/" ++ p.1) := by
      simp only [choose_best_org_from_site]
      rw [hfold]
      simp [hkey]
    refine ⟨fun _ => ⟨p, hp, hres⟩, ?_⟩
    constructor
    · intro hnone; rw [hres] at hnone; exact absurd hnone (by simp)
    · intro h; exact absurd h (by simp)

theorem choose_best_returns_a_key_witness :
    ∃ p ∈ [(str r"acmelabs", 3), (str r"randomorg", 5)],
      choose_best_org_from_site [(str r"acmelabs", 3), (str r"randomorg", 5)]
          (str r"Acme Labs") =
        some (str r"https://github.com/" ++ p.1) :=
  (choose_best_returns_a_key [(str r"acmelabs", 3), (str r"randomorg", 5)]
    (str r"Acme Labs") (by decide)).1 (by decide)

/-- C10 counterexample: a non-empty counts dict whose single key is the
empty string makes `choose_best_org_from_site` return `none`, because the
source's final `if best:` treats the empty winning key as falsy. -/
theorem choose_best_empty_key_counterexample :
    choose_best_org_from_site [(([] : Str), 1)] (str r"x") = none ∧
    ([(([] : Str), 1)] : List (Str × Nat)) ≠ [] := by
  refine ⟨by decide, by decide⟩

/-! ## Member enrichment (`get_github_members`, src/main.py:126-193) -/

/-- The local-part class `[A-Za-z0-9._%+-]` of the email pattern. -/
def emailLocalChar (c : Char) : Bool :=
  isAlnumChar c || c == '.' || c == '_' || c == '%' || c == '+' || c == '-'

/-- The domain class `[A-Za-z0-9.-]` of the email pattern. -/
def emailDomainChar (c : Char) : Bool :=
  isAlnumChar c || c == '.' || c == '-'

/-- Backtracking step of `[A-Za-z0-9.-]+\.[A-Za-z]{2,}` inside the maximal
domain run: find the rightmost dot followed by at least two letters, and
return the part before the dot together with the maximal letter run after
it.  (Greedy `+` gives back characters from the right, so the rightmost
viable dot wins; a dot with nothing before it fails the `+`.) -/
def findTldSplitAux : Str → Option (Str × Str)
  | [] => none
  | c :: t =>
    match findTldSplitAux t with
    | some r => some (c :: r.1, r.2)
    | none =>
      if c == '.' then
        let tld := takeClass isAlphaChar t
        if 2 ≤ tld.1.length then some ([], tld.1) else none
      else none

/-- Match of `[A-Za-z0-9._%+-]+@[A-Za-z0-9.-]+\.[A-Za-z]{2,}` anchored at
the start of the input. -/
def matchEmailAt (s : Str) : Option Str :=
  match (takeClass emailLocalChar s).1, (takeClass emailLocalChar s).2 with
  | [], _ => none
  | _ :: _, '@' :: r2 =>
    match findTldSplitAux (takeClass emailDomainChar r2).1 with
    | some r =>
      match r.1 with
      | [] => none
      | _ :: _ =>
        some ((takeClass emailLocalChar s).1 ++ '@' :: (r.1 ++ '.' :: r.2))
    | none => none
  | _ :: _, _ => none

/-- `re.search` of the email pattern (src/main.py:154): leftmost match. -/
def pyEmailSearch : Str → Option Str
  | [] => none
  | c :: t =>
    match matchEmailAt (c :: t) with
    | some m => some m
    | none => pyEmailSearch t

/-- The `https?://` literal under `re.I`, keeping the original characters;
greedy `s?` tries the longer scheme first. -/
def matchSchemeCI (s : Str) : Option (Str × Str) :=
  if ciStarts (str r"https://") s then some (s.take 8, s.drop 8)
  else if ciStarts (str r"http://") s then some (s.take 7, s.drop 7)
  else none

/-- Does `linkedin.com` start (case-insensitively) at some position ≥ 1 of
the run?  This is the backtracking condition of `[^\s]+linkedin\.com`:
at least one run character must precede the literal. -/
def hasLinkedinInside (run : Str) : Bool :=
  match run with
  | [] => false
  | _ :: t => ciAnywhere (str r"linkedin.com") t

/-- Match of `(https?://[^\s]+linkedin\.com[^\s]*)` (with `re.I`) anchored
at the start of the input.  A successful match always extends, via the
trailing greedy `[^\s]*`, to the end of the maximal non-whitespace run
following the scheme, so the group is the scheme plus that whole run. -/
def matchLinkedinAt (s : Str) : Option Str :=
  match matchSchemeCI s with
  | none => none
  | some sc =>
    let run := takeClass (fun c => !(isSpaceChar c)) sc.2
    if hasLinkedinInside run.1 then some (sc.1 ++ run.1) else none

/-- `re.search` of the LinkedIn pattern (src/main.py:161): leftmost match. -/
def pyLinkedinSearch : Str → Option Str
  | [] => none
  | c :: t =>
    match matchLinkedinAt (c :: t) with
    | some m => some m
    | none => pyLinkedinSearch t

/-- Python falsiness of an optional string: `None` and `""` are falsy. -/
def falsy : Option Str → Bool
  | none => true
  | some [] => true
  | some (_ :: _) => false

/-- Normalize an optional string by Python truthiness (`x or None`). -/
def truthy (o : Option Str) : Option Str :=
  if falsy o then none else o

/-- The fields read from the user-profile endpoint's JSON
(src/main.py:144-150); `none` models an absent or `null` field. -/
structure UserData where
  name : Option Str
  html_url : Option Str
  email : Option Str
  twitter_username : Option Str
  blog : Option Str
  bio : Option Str
deriving DecidableEq

/-- The dictionary appended per member (src/main.py:181-189). -/
structure Member where
  login : Str
  name : Option Str
  url : Option Str
  x : Option Str
  email : Option Str
  blog : Option Str
  linkedin : Option Str
deriving DecidableEq

/-- Oracles for the network calls of member enrichment.  `membersResp org`
is the org-members listing (`none` = non-200), giving each item's `login`
field; `userResp login` is the user profile (`none` = non-200);
`scrapeResp login` is the `(linkedin, email)` pair produced by
`scrape_github_profile_for_contacts`, which catches its own errors and
returns `(None, None)` on any failure; `eventsEmail login` is the result of
`get_email_from_events`, likewise `none` on failure. -/
structure GithubEnv where
  membersResp : Str → Option (List (Option Str))
  userResp : Str → Option UserData
  scrapeResp : Str → Option Str × Option Str
  eventsEmail : Str → Option Str

/-- `bio = ud.get("bio") or ""` (src/main.py:150). -/
def bioOf (ud : UserData) : Str :=
  match truthy ud.bio with
  | some b => b
  | none => []

/-- `twitter_url = f"https://x.com/{twitter}" if twitter else None`
(src/main.py:146-147). -/
def xUrlOf (ud : UserData) : Option Str :=
  match truthy ud.twitter_username with
  | some t => some (str r"https://x.com/" ++ t)
  | none => none

/-- Email after the profile field and the bio regex (src/main.py:149-156). -/
def emailStage1 (ud : UserData) : Option Str :=
  if falsy ud.email then
    match pyEmailSearch (bioOf ud) with
    | some m => some m
    | none => ud.email
  else ud.email

/-- LinkedIn after the bio regex and the blog fallback
(src/main.py:159-165). -/
def linkedStage1 (ud : UserData) : Option Str :=
  let l0 := if inStr (str r"linkedin.com") (lowerStr (bioOf ud))
    then pyLinkedinSearch (bioOf ud) else none
  if falsy l0 then
    match truthy ud.blog with
    | some b => if inStr (str r"linkedin.com") (lowerStr b) then some b else l0
    | none => l0
  else l0

/-- The profile-page scrape, performed only when LinkedIn or email is still
missing (src/main.py:168-169). -/
def scrapedOf (env : GithubEnv) (login : Str) (ud : UserData) :
    Option Str × Option Str :=
  if falsy (linkedStage1 ud) || falsy (emailStage1 ud)
  then env.scrapeResp login else (none, none)

/-- LinkedIn after the scrape fallback (src/main.py:170-171). -/
def linkedFinal (env : GithubEnv) (login : Str) (ud : UserData) : Option Str :=
  if falsy (linkedStage1 ud) && !(falsy (scrapedOf env login ud).1)
  then (scrapedOf env login ud).1 else linkedStage1 ud

/-- Email after the scrape fallback (src/main.py:172-173). -/
def emailStage2 (env : GithubEnv) (login : Str) (ud : UserData) : Option Str :=
  if falsy (emailStage1 ud) && !(falsy (scrapedOf env login ud).2)
  then (scrapedOf env login ud).2 else emailStage1 ud

/-- Email after the push-events fallback (src/main.py:176-179). -/
def emailFinal (env : GithubEnv) (login : Str) (ud : UserData) : Option Str :=
  if falsy (emailStage2 env login ud) then
    match truthy (env.eventsEmail login) with
    | some e => some e
    | none => emailStage2 env login ud
  else emailStage2 env login ud

/-- `blog if blog and "linkedin.com" not in blog.lower() else None`
(src/main.py:187). -/
def blogOut (ud : UserData) : Option Str :=
  match truthy ud.blog with
  | some b => if inStr (str r"linkedin.com") (lowerStr b) then none else some b
  | none => none

/-- Per-item body of the member loop (src/main.py:136-189): a falsy login
is skipped, a non-200 profile fetch skips the member entirely; otherwise a
Member is appended with the waterfall-resolved contact fields. -/
def processMember (env : GithubEnv) (item : Option Str) : Option Member :=
  match truthy item with
  | none => none
  | some login =>
    match env.userResp login with
    | none => none
    | some ud =>
      some (Member.mk login ud.name ud.html_url (xUrlOf ud)
        (emailFinal env login ud) (blogOut ud) (linkedFinal env login ud))

/-- `get_github_members` (src/main.py:126-193) on a run in which every HTTP
call completes with a status (exceptions, which would abort the whole
listing, are outside the model): parse the org, list members, enrich each. -/
def get_github_members (env : GithubEnv) (github_url : Str) : List Member :=
  match get_org_from_github_url github_url with
  | none => []
  | some org =>
    match env.membersResp org with
    | none => []
    | some items => items.filterMap (processMember env)

/-! ### Facts about member enrichment -/

theorem processMember_some (env : GithubEnv) (c : Char) (t : Str) (ud : UserData)
    (hud : env.userResp (c :: t) = some ud) :
    processMember env (some (c :: t)) =
      some (Member.mk (c :: t) ud.name ud.html_url (xUrlOf ud)
        (emailFinal env (c :: t) ud) (blogOut ud) (linkedFinal env (c :: t) ud)) := by
  simp [processMember, truthy, falsy, hud]

theorem mem_get_github_members (env : GithubEnv) (url org : Str)
    (items : List (Option Str)) (c : Char) (t : Str) (ud : UserData)
    (horg : get_org_from_github_url url = some org)
    (hitems : env.membersResp org = some items)
    (hin : some (c :: t) ∈ items)
    (hud : env.userResp (c :: t) = some ud) :
    Member.mk (c :: t) ud.name ud.html_url (xUrlOf ud)
      (emailFinal env (c :: t) ud) (blogOut ud) (linkedFinal env (c :: t) ud)
      ∈ get_github_members env url := by
  simp only [get_github_members, horg, hitems]
  exact List.mem_filterMap.mpr ⟨some (c :: t), hin, processMember_some env c t ud hud⟩

theorem matchEmailAt_ne_nil (s m : Str) (h : matchEmailAt s = some m) : m ≠ [] := by
  simp only [matchEmailAt] at h
  split at h
  · exact absurd h (by simp)
  · split at h
    · split at h
      · exact absurd h (by simp)
      · rw [Option.some_inj] at h
        intro hm
        rw [← h] at hm
        exact absurd hm (by simp)
    · exact absurd h (by simp)
  · exact absurd h (by simp)

theorem pyEmailSearch_ne_nil : ∀ (s m : Str), pyEmailSearch s = some m → m ≠ [] := by
  intro s
  induction s with
  | nil => intro m h; exact absurd h (by simp [pyEmailSearch])
  | cons c t ih =>
    intro m h
    unfold pyEmailSearch at h
    cases hm : matchEmailAt (c :: t) with
    | some mw =>
      rw [hm] at h
      rw [Option.some_inj] at h
      exact h ▸ matchEmailAt_ne_nil _ _ hm
    | none =>
      rw [hm] at h
      exact ih m h

/-- C3 (amended): a listed login whose profile fetch succeeds (HTTP 200)
always yields a Member entry, even when the profile carries no contact data
and the remaining enrichment sub-calls (profile-page scrape, events fetch)
all fail — the entry is kept with its contact fields empty.  (The claim as
stated is refuted separately: a login whose profile fetch itself returns
non-200 is dropped, not kept with empty fields.) -/
theorem member_kept_when_subcalls_fail (env : GithubEnv) (url org : Str)
    (items : List (Option Str)) (c : Char) (t : Str) (ud : UserData)
    (horg : get_org_from_github_url url = some org)
    (hitems : env.membersResp org = some items)
    (hin : some (c :: t) ∈ items)
    (hud : env.userResp (c :: t) = some ud)
    (hemail : ud.email = none) (hbio : ud.bio = none) (hblog : ud.blog = none)
    (htw : ud.twitter_username = none)
    (hscrape : env.scrapeResp (c :: t) = (none, none))
    (hev : env.eventsEmail (c :: t) = none) :
    ∃ m ∈ get_github_members env url, m.login = c :: t ∧ m.email = none ∧
      m.x = none ∧ m.blog = none ∧ m.linkedin = none := by
  have hbioOf : bioOf ud = [] := by simp [bioOf, truthy, falsy, hbio]
  have hnolk : inStr (str r"linkedin.com") (lowerStr ([] : Str)) = false := by decide
  have he1 : emailStage1 ud = none := by
    simp [emailStage1, falsy, hemail, hbioOf, pyEmailSearch]
  have hl1 : linkedStage1 ud = none := by
    simp [linkedStage1, hbioOf, hnolk, truthy, falsy, hblog]
  have hsc : scrapedOf env (c :: t) ud = (none, none) := by
    simp [scrapedOf, hl1, falsy, hscrape]
  have hlf : linkedFinal env (c :: t) ud = none := by
    simp [linkedFinal, hsc, hl1, falsy]
  have he2 : emailStage2 env (c :: t) ud = none := by
    simp [emailStage2, hsc, he1, falsy]
  have hef : emailFinal env (c :: t) ud = none := by
    simp [emailFinal, he2, hev, truthy, falsy]
  have hx : xUrlOf ud = none := by simp [xUrlOf, truthy, falsy, htw]
  have hbo : blogOut ud = none := by simp [blogOut, truthy, falsy, hblog]
  refine ⟨_, mem_get_github_members env url org items c t ud horg hitems hin hud,
    rfl, hef, hx, hbo, hlf⟩

def c3EnvB : GithubEnv :=
  GithubEnv.mk (fun o => if o = str r"acme" then some [some (str r"alice")] else none)
    (fun l => if l = str r"alice"
      then some (UserData.mk none none none none none none) else none)
    (fun _ => (none, none)) (fun _ => none)

theorem member_kept_when_subcalls_fail_witness :
    ∃ m ∈ get_github_members c3EnvB (str r"https://github.com/acme"),
      m.login = 'a' :: str r"lice" ∧ m.email = none ∧ m.x = none ∧ m.blog = none ∧
      m.linkedin = none :=
  member_kept_when_subcalls_fail c3EnvB (str r"https://github.com/acme") (str r"acme")
    [some (str r"alice")] 'a' (str r"lice")
    (UserData.mk none none none none none none)
    (by decide) (by decide) (by decide) (by decide) rfl rfl rfl rfl rfl rfl

def c3Env : GithubEnv :=
  GithubEnv.mk (fun o => if o = str r"acme" then some [some (str r"alice")] else none)
    (fun _ => none) (fun _ => (none, none)) (fun _ => none)

/-- C3 counterexample: the org listing contains the login `alice`, every
enrichment sub-call for her fails — including the profile fetch (non-200) —
and the returned member list is empty: the member is dropped rather than
kept with empty contact fields as the claim states. -/
theorem member_dropped_on_profile_failure_counterexample :
    c3Env.membersResp (str r"acme") = some [some (str r"alice")] ∧
    c3Env.userResp (str r"alice") = none ∧
    get_github_members c3Env (str r"https://github.com/acme") = [] := by
  refine ⟨by decide, rfl, by decide⟩

/-- C8: when the profile API's email field is empty (absent or the empty
string) and the bio contains an email-shaped substring, the returned
member's email equals the first email-regex match of the bio. -/
theorem email_from_bio_regex (env : GithubEnv) (url org : Str)
    (items : List (Option Str)) (c : Char) (t : Str) (ud : UserData) (m : Str)
    (horg : get_org_from_github_url url = some org)
    (hitems : env.membersResp org = some items)
    (hin : some (c :: t) ∈ items)
    (hud : env.userResp (c :: t) = some ud)
    (hemail : falsy ud.email = true)
    (hsearch : pyEmailSearch (bioOf ud) = some m) :
    ∃ mem ∈ get_github_members env url, mem.login = c :: t ∧ mem.email = some m := by
  have hm : m ≠ [] := pyEmailSearch_ne_nil _ _ hsearch
  have hfm : falsy (some m) = false := by
    rcases m with - | ⟨mc, mt⟩
    · exact absurd rfl hm
    · rfl
  have he1 : emailStage1 ud = some m := by
    simp [emailStage1, hemail, hsearch]
  have he2 : emailStage2 env (c :: t) ud = some m := by
    simp [emailStage2, he1, hfm]
  have hef : emailFinal env (c :: t) ud = some m := by
    simp [emailFinal, he2, hfm]
  exact ⟨_, mem_get_github_members env url org items c t ud horg hitems hin hud,
    rfl, hef⟩

def c8Env : GithubEnv :=
  GithubEnv.mk (fun o => if o = str r"acme" then some [some (str r"bob")] else none)
    (fun l => if l = str r"bob"
      then some (UserData.mk none none none none none
        (some (str r"contact me a@b.co")))
      else none)
    (fun _ => (none, none)) (fun _ => none)

theorem email_from_bio_regex_witness :
    ∃ mem ∈ get_github_members c8Env (str r"https://github.com/acme"),
      mem.login = 'b' :: str r"ob" ∧ mem.email = some (str r"a@b.co") :=
  email_from_bio_regex c8Env (str r"https://github.com/acme") (str r"acme")
    [some (str r"bob")] 'b' (str r"ob")
    (UserData.mk none none none none none (some (str r"contact me a@b.co")))
    (str r"a@b.co") (by decide) (by decide) (by decide) (by decide) rfl (by decide)

/-- C9 (amended): the returned blog/portfolio field equals the profile
API's truthy blog field unless that field contains `linkedin.com` as a
case-insensitive substring, in which case it is absent — the test is the
substring check, not equality with the member's resolved LinkedIn value. -/
theorem blog_dropped_iff_contains_linkedin (env : GithubEnv) (url org : Str)
    (items : List (Option Str)) (c : Char) (t : Str) (ud : UserData) (b : Str)
    (horg : get_org_from_github_url url = some org)
    (hitems : env.membersResp org = some items)
    (hin : some (c :: t) ∈ items)
    (hud : env.userResp (c :: t) = some ud)
    (hblog : truthy ud.blog = some b) :
    ∃ mem ∈ get_github_members env url, mem.login = c :: t ∧
      (inStr (str r"linkedin.com") (lowerStr b) = true → mem.blog = none) ∧
      (inStr (str r"linkedin.com") (lowerStr b) = false → mem.blog = some b) := by
  refine ⟨_, mem_get_github_members env url org items c t ud horg hitems hin hud,
    rfl, ?_, ?_⟩
  · intro hc
    show blogOut ud = none
    simp [blogOut, hblog, hc]
  · intro hc
    show blogOut ud = some b
    simp [blogOut, hblog, hc]

def c9Env : GithubEnv :=
  GithubEnv.mk (fun o => if o = str r"acme" then some [some (str r"carol")] else none)
    (fun l => if l = str r"carol"
      then some (UserData.mk none none none none
        (some (str r"https://linkedin.com/in/b"))
        (some (str r"x https://www.linkedin.com/in/a")))
      else none)
    (fun _ => (none, none)) (fun _ => none)

theorem blog_dropped_iff_contains_linkedin_witness :
    ∃ mem ∈ get_github_members c9Env (str r"https://github.com/acme"),
      mem.login = 'c' :: str r"arol" ∧
      (inStr (str r"linkedin.com") (lowerStr (str r"https://linkedin.com/in/b")) = true →
        mem.blog = none) ∧
      (inStr (str r"linkedin.com") (lowerStr (str r"https://linkedin.com/in/b")) = false →
        mem.blog = some (str r"https://linkedin.com/in/b")) :=
  blog_dropped_iff_contains_linkedin c9Env (str r"https://github.com/acme")
    (str r"acme") [some (str r"carol")] 'c' (str r"arol")
    (UserData.mk none none none none (some (str r"https://linkedin.com/in/b"))
      (some (str r"x https://www.linkedin.com/in/a")))
    (str r"https://linkedin.com/in/b")
    (by decide) (by decide) (by decide) (by decide) rfl

/-- C9 counterexample: the profile's blog value
`https://linkedin.com/in/b` is distinct from the member's resolved LinkedIn
value `https://www.linkedin.com/in/a` (found in the bio), yet the returned
blog field is `none` because the blog merely contains `linkedin.com` —
refuting "absent exactly when it duplicates the LinkedIn value". -/
theorem blog_distinct_from_linkedin_dropped_counterexample :
    get_github_members c9Env (str r"https://github.com/acme") =
      [Member.mk (str r"carol") none none none none none
        (some (str r"https://www.linkedin.com/in/a"))] ∧
    (str r"https://linkedin.com/in/b") ≠ (str r"https://www.linkedin.com/in/a") := by
  refine ⟨by decide, by decide⟩
